import Mathlib

/-
Verification of the `cindex` orchestration layer (cmd/cindex/cindex.go).

The development shallowly embeds the `main` function of cindex as a pure
function from parsed flags and an abstract environment (filesystem and
external-collaborator behaviour) to the sequence of externally observable
events the run performs, together with the kind of exit the process takes.
External collaborators (the index library, the regexp engine, filepath.Abs,
filepath.Walk's visit order) are abstracted at their call boundary as
parameters of the environment; the control flow, the event order and the
argument strings are translated directly from the Go source.
-/

namespace Cindex

/-- Byte-lexicographic comparison of strings, modelled on `List Char`
(UTF-8 byte order coincides with code-point order, so this is the order
used by Go's `sort.Strings`). -/
def charListLe : List Char → List Char → Bool
  | [], _ => true
  | _ :: _, [] => false
  | a :: as, b :: bs => if a < b then true else if b < a then false else charListLe as bs

/-- `strLe a b` holds when `a` sorts no later than `b` under Go's string order. -/
def strLe (a b : String) : Bool := charListLe a.data b.data

/-- Insert a string into a `strLe`-sorted list, keeping it sorted. -/
def insertSorted (a : String) : List String → List String
  | [] => [a]
  | b :: bs => if strLe a b then a :: b :: bs else b :: insertSorted a bs

/-- Sort a list of strings into Go's `sort.Strings` order (cindex.go line 133).
The sorted arrangement of a string multiset is unique, so insertion sort
yields exactly the list Go's sort produces. -/
def sortStrings : List String → List String
  | [] => []
  | a :: as => insertSorted a (sortStrings as)

/-- The loop `for len(args) > 0 && args[0] == "" { args = args[1:] }`
(cindex.go lines 135-137): drop the leading run of empty strings. -/
def dropLeadingEmpty : List String → List String
  | [] => []
  | a :: rest => if a = "" then dropLeadingEmpty rest else a :: rest

/-- The `elem` component of Go's `filepath.Split(path)` (cindex.go line 185):
everything after the final `/`. -/
def lastComponent (path : String) : String :=
  String.mk ((path.data.reverse.takeWhile (fun c => c ≠ '/')).reverse)

/-- The hidden-name test of cindex.go line 187:
`elem[0] == '.' || elem[0] == '#' || elem[0] == '~' || elem[len(elem)-1] == '~'`.
On the empty name the test is never reached (guarded by `elem != ""`),
modelled here as `false`. -/
def isHiddenName (elem : String) : Bool :=
  match elem.data with
  | [] => false
  | c :: cs => c == '.' || c == '#' || c == '~' || (c :: cs).getLastD ' ' == '~'

/-- The two facts about an `os.FileInfo` that the walk callback consults:
`IsDir()` and `Mode()&os.ModeType == 0` (regular file). -/
structure FileInfo where
  isDir : Bool
  isRegular : Bool
  deriving DecidableEq

/-- Result of one invocation of the `filepath.Walk` callback of cindex.go
lines 176-202. `panik` is the nil-interface dereference that occurs when the
callback is invoked with a nil `info` (Go calls `info.IsDir()` before the
`err != nil` check). -/
inductive WalkOutcome where
  | panik
  | skipDir
  | skipEntry
  | errLogged
  | addFile
  | contNone
  deriving DecidableEq

/-- The walk callback of cindex.go lines 176-202, with the compiled
exclude-pattern disjunction abstracted as `matcher` (the closure
`anyRegexpMatches` built at lines 159-169). The source consults, in order:
`info.IsDir() && anyRegexpMatches(path)` (line 178), the hidden-name check on
the final path component (lines 185-193), `err != nil` (line 194), and the
regular-file test before `ix.AddFile` (line 198). -/
def walkFn (matcher : String → Bool) (path : String)
    (info : Option FileInfo) (err : Option String) : WalkOutcome :=
  match info with
  | none => WalkOutcome.panik
  | some fi =>
    if fi.isDir && matcher path then
      WalkOutcome.skipDir
    else
      let elem := lastComponent path
      if elem != "" && isHiddenName elem then
        (if fi.isDir then WalkOutcome.skipDir else WalkOutcome.skipEntry)
      else if err.isSome then
        WalkOutcome.errLogged
      else if fi.isRegular then
        WalkOutcome.addFile
      else
        WalkOutcome.contNone

/-- The externally observable events of one cindex run. Events that write to
a file record the path written. `removeFile` and `renameFile` carry the
success of the underlying syscall, whose error the source discards. -/
inductive Event where
  | openIndex (p : String)
  | printPath (p : String)
  | createProfile (p : String)
  | startProfile
  | stopProfile
  | removeFile (p : String) (ok : Bool)
  | statMaster (p : String)
  | logErr (s : String)
  | compilePattern (s : String)
  | createIndex (p : String)
  | addPathsTo (p : String) (roots : List String)
  | logIndexRoot (r : String)
  | addFileTo (p : String) (f : String)
  | flushIndexAt (p : String)
  | mergeIndex (dst src1 src2 : String)
  | renameFile (src dst : String) (ok : Bool)
  | logDone
  | panicEvt
  deriving DecidableEq

/-- How the process ends: normal return, `log.Fatal` (os.Exit, deferred
calls skipped), or an unrecovered panic (deferred calls run). -/
inductive ExitKind where
  | ok
  | fatal
  | panicked
  deriving DecidableEq

/-- Whether an event mutates the file at path `t`: creating or truncating it,
writing into it, merging onto it, successfully removing it, or a successful
rename that takes it as source or destination. -/
def mutatesPath (e : Event) (t : String) : Bool :=
  match e with
  | Event.createProfile p => decide (p = t)
  | Event.removeFile p ok => ok && decide (p = t)
  | Event.createIndex p => decide (p = t)
  | Event.addPathsTo p _ => decide (p = t)
  | Event.addFileTo p _ => decide (p = t)
  | Event.flushIndexAt p => decide (p = t)
  | Event.mergeIndex dst _ _ => decide (dst = t)
  | Event.renameFile src dst ok => ok && (decide (src = t) || decide (dst = t))
  | _ => false

/-- Whether an event touches any index artifact (staging, merged or master):
the events of the build, merge and publish phases. -/
def touchesIndex (e : Event) : Bool :=
  match e with
  | Event.createIndex _ => true
  | Event.addPathsTo _ _ => true
  | Event.addFileTo _ _ => true
  | Event.flushIndexAt _ => true
  | Event.mergeIndex _ _ _ => true
  | Event.renameFile _ _ _ => true
  | Event.removeFile _ _ => true
  | _ => false

/-- Whether an event is a rename whose destination is `t`. -/
def isRenameOnto (e : Event) (t : String) : Bool :=
  match e with
  | Event.renameFile _ dst _ => decide (dst = t)
  | _ => false

/-- The parsed command line of one cindex invocation (cindex.go lines 69-91). -/
structure Flags where
  list : Bool
  reset : Bool
  verbose : Bool
  cpuprofile : Option String
  exclude : List String
  args : List String

/-- One callback invocation `filepath.Walk` makes: visited path, the
`os.FileInfo` (absent when `lstat` failed), and the incoming error. -/
abbrev Visit := String × Option FileInfo × Option String

/-- The abstract environment of a run: the master artifact's resolved path
and existence, the root list recorded in an existing master, and the
behaviour of the external collaborators at their call boundaries
(`filepath.Abs`, `regexp.Compile`, pattern matching, `os.Create` of the
profile file, `os.Remove`, `os.Rename`, and the visit sequence
`filepath.Walk` presents to the callback for each root). -/
structure Env where
  masterPath : String
  masterExists : Bool
  recordedPaths : List String
  absResolve : String → Option String
  compileOk : String → Bool
  rmatch : String → String → Bool
  profileCreateOk : Bool
  removeOk : Bool
  renameOk : Bool
  walkVisits : String → List Visit

/-- The built-in baseline exclude patterns appended before flag parsing
(cindex.go lines 79-86). -/
def builtinExcludePatterns : List String :=
  ["/.git$", "/node_modules", "/bazel-(bin|out|testlogs)", "/venv",
   "/.csearchindex", ".*/go/pkg/mod"]

/-- `filepath.Abs` at one argument as the source uses it (cindex.go lines
124-132): the absolute form on success, the empty string on failure. -/
def resolveOne (abs : String → Option String) (a : String) : String :=
  (abs a).getD ""

/-- The diagnostics the resolution loop logs (cindex.go line 127): one line
per argument whose `filepath.Abs` fails. -/
def resolveEvents (abs : String → Option String) (args : List String) : List Event :=
  args.filterMap (fun a => if (abs a).isNone then some (Event.logErr a) else none)

/-- The path-resolution pipeline of cindex.go lines 124-137: map each
argument to its absolute form (empty string on failure), sort, then drop the
leading empty entries. -/
def resolveArgs (abs : String → Option String) (args : List String) : List String :=
  dropLeadingEmpty (sortStrings (args.map (resolveOne abs)))

/-- Reset-mode selection (cindex.go lines 139-143): reset was requested, or
the master artifact does not exist. -/
def resetMode (resetFlag masterExists : Bool) : Bool :=
  resetFlag || !masterExists

/-- The staging artifact's path (cindex.go lines 144-147): the master path
itself in reset mode, the master path plus `"~"` otherwise. -/
def stagingPath (master : String) (reset : Bool) : String :=
  if reset then master else master ++ "~"

/-- `anyRegexpMatches` (cindex.go lines 159-169): whether any compiled
exclude pattern matches the path, with per-pattern matching abstracted as
`rmatch`. -/
def anyRegexpMatches (rmatch : String → String → Bool) (pats : List String)
    (p : String) : Bool :=
  pats.any (fun pat => rmatch pat p)

/-- The pattern-compilation loop of cindex.go lines 149-157: compile each
pattern in order; `panic(err)` at the first failure (second component
`false`). -/
def compilePhase (compileOk : String → Bool) : List String → List Event × Bool
  | [] => ([], true)
  | p :: ps =>
    if compileOk p then
      let rest := compilePhase compileOk ps
      (Event.compilePattern p :: rest.1, rest.2)
    else
      ([Event.compilePattern p], false)

/-- The events of running the walk callback over one root's visit sequence,
writing into the staging artifact at `file`; the second component is `false`
when a visit paniked (nil `info`), which aborts the walk. -/
def visitEvents (matcher : String → Bool) (file : String) : List Visit → List Event × Bool
  | [] => ([], true)
  | (p, fi, er) :: rest =>
    match walkFn matcher p fi er with
    | WalkOutcome.panik => ([], false)
    | WalkOutcome.addFile =>
      let r := visitEvents matcher file rest
      (Event.addFileTo file p :: r.1, r.2)
    | WalkOutcome.errLogged =>
      let r := visitEvents matcher file rest
      (Event.logErr p :: r.1, r.2)
    | _ => visitEvents matcher file rest

/-- The per-root loop of cindex.go lines 174-203: log `index <root>`, walk
the root; a panic propagates and abandons the remaining roots. -/
def walkRoots (matcher : String → Bool) (file : String)
    (visits : String → List Visit) : List String → List Event × Bool
  | [] => ([], true)
  | r :: rs =>
    let v := visitEvents matcher file (visits r)
    if v.2 then
      let rest := walkRoots matcher file visits rs
      (Event.logIndexRoot r :: v.1 ++ rest.1, rest.2)
    else
      (Event.logIndexRoot r :: v.1, false)

/-- The merge-and-publish tail of cindex.go lines 207-212, run only in
incremental mode: `index.Merge(file+"~", master, file)`, then
`os.Remove(file)`, then `os.Rename(file+"~", master)` (both syscall errors
discarded by the source). -/
def mergePhase (reset : Bool) (master file : String) (removeOk renameOk : Bool) : List Event :=
  if reset then []
  else [Event.mergeIndex (file ++ "~") master file,
        Event.removeFile file removeOk,
        Event.renameFile (file ++ "~") master renameOk]

/-- The build pipeline of cindex.go lines 122-213 on an already-recovered
argument list: resolve and sort the roots, stat the master, pick the mode
and staging path, compile the exclude patterns (panic at the first bad one),
create the staging artifact, record the roots, walk each root, flush, and in
incremental mode merge and publish. -/
def buildPhase (fl : Flags) (env : Env) (excludePatterns : List String)
    (rawArgs : List String) : List Event × ExitKind :=
  let master := env.masterPath
  let resolveEvs := resolveEvents env.absResolve rawArgs
  let args := resolveArgs env.absResolve rawArgs
  let reset := resetMode fl.reset env.masterExists
  let file := stagingPath master reset
  let comp := compilePhase env.compileOk excludePatterns
  if comp.2 then
    let walked := walkRoots (anyRegexpMatches env.rmatch excludePatterns) file
      env.walkVisits args
    if walked.2 then
      (resolveEvs ++ [Event.statMaster master] ++ comp.1 ++
        [Event.createIndex file, Event.addPathsTo file args] ++ walked.1 ++
        [Event.flushIndexAt file] ++
        mergePhase reset master file env.removeOk env.renameOk ++
        [Event.logDone],
       ExitKind.ok)
    else
      (resolveEvs ++ [Event.statMaster master] ++ comp.1 ++
        [Event.createIndex file, Event.addPathsTo file args] ++ walked.1 ++
        [Event.panicEvt],
       ExitKind.panicked)
  else
    (resolveEvs ++ [Event.statMaster master] ++ comp.1 ++ [Event.panicEvt],
     ExitKind.panicked)

/-- Modelled from the spec: the behaviour of the index library's
`open(path) -> handle` collaborator (`index.Open`, code of this repository
outside `src/`), which the spec describes as opening the master artifact and
exposing its recorded root list (`list-roots`). An artifact that does not
exist yields no handle: the library memory-maps the path and aborts the
process fatally, so the open succeeds exactly when the master exists. -/
def indexOpen (masterExists : Bool) (recordedPaths : List String) :
    Option (List String) :=
  if masterExists then some recordedPaths else none

/-- cindex.go lines 111-213, the part of `main` after the profiling setup:
the RESET-ONLY path (lines 111-114), the recovery of the argument list from
the existing master when no paths were given (lines 115-120, via
`indexOpen`; a failed open is a fatal library exit), then the build
pipeline. -/
def afterProfile (fl : Flags) (env : Env) (excludePatterns : List String) :
    List Event × ExitKind :=
  let master := env.masterPath
  if fl.reset && fl.args.isEmpty then
    ([Event.removeFile master env.removeOk], ExitKind.ok)
  else if fl.args.isEmpty then
    match indexOpen env.masterExists env.recordedPaths with
    | some recovered =>
      let b := buildPhase fl env excludePatterns recovered
      (Event.openIndex master :: b.1, b.2)
    | none =>
      ([Event.openIndex master], ExitKind.fatal)
  else
    buildPhase fl env excludePatterns fl.args

/-- The whole of `main` (cindex.go lines 78-215): append the built-in
exclude patterns, handle `-list` (lines 93-99), set up CPU profiling (lines
101-109; `log.Fatal` when the profile file cannot be created, and
`pprof.StopCPUProfile` deferred, so it runs on normal return and on panic
but not on `os.Exit`), then the rest of the run. -/
def cindexMain (fl : Flags) (env : Env) : List Event × ExitKind :=
  let excludePatterns := builtinExcludePatterns ++ fl.exclude
  let master := env.masterPath
  if fl.list then
    (Event.openIndex master :: env.recordedPaths.map Event.printPath, ExitKind.ok)
  else
    match fl.cpuprofile with
    | some p =>
      if env.profileCreateOk then
        let r := afterProfile fl env excludePatterns
        (Event.createProfile p :: Event.startProfile ::
          (r.1 ++ if r.2 = ExitKind.fatal then [] else [Event.stopProfile]), r.2)
      else
        ([Event.createProfile p], ExitKind.fatal)
    | none => afterProfile fl env excludePatterns

/-! Concrete fixtures used by counterexamples and witnesses. -/

/-- A benign environment: master `"M"` exists, every argument resolves by
prefixing `/`, all patterns compile, nothing matches, every syscall
succeeds, and every root's walk visit list is empty. -/
def baseEnv : Env :=
  { masterPath := "M", masterExists := true, recordedPaths := [],
    absResolve := fun a => some ("/" ++ a), compileOk := fun _ => true,
    rmatch := fun _ _ => false, profileCreateOk := true,
    removeOk := true, renameOk := true, walkVisits := fun _ => [] }

/-- A reset-mode invocation: `cindex -reset a`. -/
def flagsResetRun : Flags :=
  { list := false, reset := true, verbose := false, cpuprofile := none,
    exclude := [], args := ["a"] }

/-- An incremental invocation: `cindex a`. -/
def flagsIncrRun : Flags :=
  { list := false, reset := false, verbose := false, cpuprofile := none,
    exclude := [], args := ["a"] }

/-- A LIST invocation with profiling requested: `cindex -list -cpuprofile p`. -/
def flagsListRun : Flags :=
  { list := true, reset := false, verbose := false, cpuprofile := some "p",
    exclude := [], args := [] }

/-- A profiled build invocation with a malformed operator pattern:
`cindex -cpuprofile p -exclude ( a`. -/
def flagsProfiledBadPattern : Flags :=
  { list := false, reset := false, verbose := false, cpuprofile := some "p",
    exclude := ["("], args := ["a"] }

/-- An invocation with no positional arguments and no flags: `cindex`. -/
def flagsNoArgs : Flags :=
  { list := false, reset := false, verbose := false, cpuprofile := none,
    exclude := [], args := [] }

/-- An incremental invocation with profiling: `cindex -cpuprofile p a`. -/
def flagsProfiledIncr : Flags :=
  { list := false, reset := false, verbose := false, cpuprofile := some "p",
    exclude := [], args := ["a"] }

/-- A no-argument invocation with profiling: `cindex -cpuprofile p`. -/
def flagsProfiledNoArgs : Flags :=
  { list := false, reset := false, verbose := false, cpuprofile := some "p",
    exclude := [], args := [] }

/-- `baseEnv` with both ignored syscalls failing: the staging deletion and
the final rename return errors. -/
def envSyscallsFail : Env := { baseEnv with removeOk := false, renameOk := false }

/-- `baseEnv` where `regexp.Compile` fails on the pattern `"("`. -/
def envBadPattern : Env := { baseEnv with compileOk := fun s => !(s == "(") }

/-- `baseEnv` with no master artifact on disk. -/
def envNoMaster : Env := { baseEnv with masterExists := false }

/-- `baseEnv` where walking the root visits one entry whose `lstat` failed,
so the callback receives a nil `info`. -/
def envNilInfoVisit : Env :=
  { baseEnv with walkVisits := fun _ => [("/nonexistent", none, some "lstat error")] }

/-! Helper lemmas. -/

theorem append_tilde_ne (s : String) : s ++ "~" ≠ s := by
  intro h
  have h1 := congrArg String.length h
  rw [String.length_append] at h1
  have h2 : ("~" : String).length = 1 := rfl
  omega

theorem append_tilde_tilde_ne (s : String) : (s ++ "~") ++ "~" ≠ s := by
  intro h
  have h1 := congrArg String.length h
  rw [String.length_append, String.length_append] at h1
  have h2 : ("~" : String).length = 1 := rfl
  omega

theorem charListLe_total : ∀ as bs, charListLe as bs = true ∨ charListLe bs as = true := by
  intro as
  induction as with
  | nil => intro bs; left; rfl
  | cons a as ih =>
    intro bs
    cases bs with
    | nil => right; rfl
    | cons b bs =>
      simp only [charListLe]
      rcases lt_trichotomy a b with h | h | h
      · left; simp [h]
      · subst h
        rcases ih bs with h2 | h2
        · left; simp [lt_irrefl, h2]
        · right; simp [lt_irrefl, h2]
      · right; simp [h]

theorem charListLe_trans : ∀ as bs cs, charListLe as bs = true →
    charListLe bs cs = true → charListLe as cs = true := by
  intro as
  induction as with
  | nil => intro bs cs _ _; rfl
  | cons a as ih =>
    intro bs cs h1 h2
    cases bs with
    | nil => simp [charListLe] at h1
    | cons b bs =>
      cases cs with
      | nil => simp [charListLe] at h2
      | cons c cs =>
        simp only [charListLe] at h1 h2 ⊢
        rcases lt_trichotomy a b with hab | hab | hab
        · rcases lt_trichotomy b c with hbc | hbc | hbc
          · simp [lt_trans hab hbc]
          · subst hbc; simp [hab]
          · simp [hbc, lt_asymm hbc] at h2
        · subst hab
          rcases lt_trichotomy a c with hac | hac | hac
          · simp [hac]
          · subst hac
            simp only [lt_irrefl, if_false] at h1 h2 ⊢
            exact ih _ _ h1 h2
          · simp [hac, lt_asymm hac] at h2
        · simp [hab, lt_asymm hab] at h1

theorem strLe_total (a b : String) : strLe a b = true ∨ strLe b a = true :=
  charListLe_total a.data b.data

theorem strLe_trans {a b c : String} (h1 : strLe a b = true) (h2 : strLe b c = true) :
    strLe a c = true :=
  charListLe_trans a.data b.data c.data h1 h2

theorem strLe_empty_right {s : String} (h : strLe s "" = true) : s = "" := by
  cases s with
  | mk d =>
    cases d with
    | nil => rfl
    | cons c cs => simp [strLe, charListLe] at h

theorem mem_insertSorted {x a : String} : ∀ {l : List String},
    x ∈ insertSorted a l ↔ x = a ∨ x ∈ l := by
  intro l
  induction l with
  | nil => simp [insertSorted]
  | cons b bs ih =>
    simp only [insertSorted]
    by_cases h : strLe a b = true
    · rw [if_pos h]; simp
    · rw [if_neg h]
      simp only [List.mem_cons, ih]
      tauto

theorem pairwise_insertSorted {a : String} : ∀ {l : List String},
    List.Pairwise (fun x y => strLe x y = true) l →
    List.Pairwise (fun x y => strLe x y = true) (insertSorted a l) := by
  intro l
  induction l with
  | nil => intro _; simp [insertSorted]
  | cons b bs ih =>
    intro hp
    rcases List.pairwise_cons.1 hp with ⟨hb, hbs⟩
    simp only [insertSorted]
    by_cases h : strLe a b = true
    · rw [if_pos h]
      refine List.pairwise_cons.2 ⟨?_, hp⟩
      intro y hy
      rcases List.mem_cons.1 hy with rfl | hy
      · exact h
      · exact strLe_trans h (hb y hy)
    · have hba : strLe b a = true := by
        rcases strLe_total a b with h2 | h2
        · exact absurd h2 h
        · exact h2
      rw [if_neg h]
      refine List.pairwise_cons.2 ⟨?_, ih hbs⟩
      intro y hy
      rcases mem_insertSorted.1 hy with rfl | hy
      · exact hba
      · exact hb y hy

theorem sortStrings_sorted : ∀ l, List.Pairwise (fun x y => strLe x y = true) (sortStrings l) := by
  intro l
  induction l with
  | nil => simp [sortStrings]
  | cons a as ih => exact pairwise_insertSorted ih

theorem mem_sortStrings {x : String} : ∀ {l : List String}, x ∈ sortStrings l ↔ x ∈ l := by
  intro l
  induction l with
  | nil => simp [sortStrings]
  | cons a as ih =>
    simp only [sortStrings, mem_insertSorted, List.mem_cons, ih]

theorem dropLeadingEmpty_head {l : List String} : (dropLeadingEmpty l).head? ≠ some "" := by
  induction l with
  | nil => simp [dropLeadingEmpty]
  | cons a rest ih =>
    simp only [dropLeadingEmpty]
    by_cases h : a = ""
    · simpa [h] using ih
    · simp [h]

theorem dropLeadingEmpty_subset {l : List String} : ∀ x ∈ dropLeadingEmpty l, x ∈ l := by
  induction l with
  | nil => simp [dropLeadingEmpty]
  | cons a rest ih =>
    intro x hx
    simp only [dropLeadingEmpty] at hx
    by_cases h : a = ""
    · rw [if_pos h] at hx
      exact List.mem_cons_of_mem a (ih x hx)
    · rw [if_neg h] at hx
      exact hx

theorem dropLeadingEmpty_pairwise {R : String → String → Prop} : ∀ {l : List String},
    l.Pairwise R → (dropLeadingEmpty l).Pairwise R := by
  intro l
  induction l with
  | nil => intro _; simp [dropLeadingEmpty]
  | cons a rest ih =>
    intro hp
    simp only [dropLeadingEmpty]
    by_cases h : a = ""
    · rw [if_pos h]
      exact ih (List.pairwise_cons.1 hp).2
    · rw [if_neg h]
      exact hp

theorem empty_not_mem_dropLeadingEmpty {l : List String}
    (hs : List.Pairwise (fun x y => strLe x y = true) l) : "" ∉ dropLeadingEmpty l := by
  induction l with
  | nil => simp [dropLeadingEmpty]
  | cons a rest ih =>
    simp only [dropLeadingEmpty]
    rcases List.pairwise_cons.1 hs with ⟨ha, hrest⟩
    by_cases h : a = ""
    · rw [if_pos h]
      exact ih hrest
    · rw [if_neg h]
      intro hmem
      rcases List.mem_cons.1 hmem with he | he
      · exact h he.symm
      · exact h (strLe_empty_right (ha "" he))

theorem resolveEvents_shape {abs : String → Option String} {args : List String} :
    ∀ e ∈ resolveEvents abs args, ∃ s, e = Event.logErr s := by
  intro e he
  simp only [resolveEvents, List.mem_filterMap] at he
  obtain ⟨a, _, ha⟩ := he
  by_cases h : (abs a).isNone
  · rw [if_pos h] at ha
    exact ⟨a, (Option.some_inj.1 ha).symm⟩
  · rw [if_neg h] at ha
    exact absurd ha (Option.noConfusion)

theorem compilePhase_shape {ok : String → Bool} : ∀ {ps : List String},
    ∀ e ∈ (compilePhase ok ps).1, ∃ s, e = Event.compilePattern s := by
  intro ps
  induction ps with
  | nil => intro e he; simp [compilePhase] at he
  | cons p ps ih =>
    intro e he
    simp only [compilePhase] at he
    by_cases h : ok p = true
    · rw [if_pos h] at he
      rcases List.mem_cons.1 he with rfl | he
      · exact ⟨p, rfl⟩
      · exact ih e he
    · rw [if_neg h] at he
      rcases List.mem_cons.1 he with rfl | he
      · exact ⟨p, rfl⟩
      · simp at he

theorem compilePhase_ok {ok : String → Bool} : ∀ {ps : List String},
    (∀ p ∈ ps, ok p = true) → (compilePhase ok ps).2 = true := by
  intro ps
  induction ps with
  | nil => intro _; rfl
  | cons p ps ih =>
    intro h
    have hp : ok p = true := h p (List.mem_cons_self p ps)
    simp only [compilePhase, if_pos hp]
    exact ih (fun q hq => h q (List.mem_cons_of_mem p hq))

theorem compilePhase_bad {ok : String → Bool} : ∀ {ps : List String} {p : String},
    p ∈ ps → ok p = false → (compilePhase ok ps).2 = false := by
  intro ps
  induction ps with
  | nil => intro p h _; simp at h
  | cons q qs ih =>
    intro p hmem hbad
    rcases List.mem_cons.1 hmem with rfl | hmem
    · simp [compilePhase, hbad]
    · by_cases h : ok q = true
      · simp only [compilePhase, if_pos h]
        exact ih hmem hbad
      · simp [compilePhase, if_neg h]

theorem walkFn_some_ne_panik {m : String → Bool} {p : String} {fi : FileInfo}
    {er : Option String} : walkFn m p (some fi) er ≠ WalkOutcome.panik := by
  simp only [walkFn]
  split_ifs <;> simp

theorem visitEvents_shape {m : String → Bool} {f : String} : ∀ {vs : List Visit},
    ∀ e ∈ (visitEvents m f vs).1,
      (∃ p, e = Event.addFileTo f p) ∨ (∃ s, e = Event.logErr s) := by
  intro vs
  induction vs with
  | nil => intro e he; simp [visitEvents] at he
  | cons v rest ih =>
    obtain ⟨p, fi, er⟩ := v
    intro e he
    simp only [visitEvents] at he
    cases h : walkFn m p fi er <;> rw [h] at he
    · simp at he
    · exact ih e he
    · exact ih e he
    · rcases List.mem_cons.1 he with rfl | he
      · exact Or.inr ⟨p, rfl⟩
      · exact ih e he
    · rcases List.mem_cons.1 he with rfl | he
      · exact Or.inl ⟨p, rfl⟩
      · exact ih e he
    · exact ih e he

theorem visitEvents_ok {m : String → Bool} {f : String} : ∀ {vs : List Visit},
    (∀ v ∈ vs, (v.2.1).isSome = true) → (visitEvents m f vs).2 = true := by
  intro vs
  induction vs with
  | nil => intro _; rfl
  | cons v rest ih =>
    intro h
    obtain ⟨p, fi, er⟩ := v
    have hfi : fi.isSome = true := h (p, fi, er) (List.mem_cons_self _ _)
    obtain ⟨x, rfl⟩ := Option.isSome_iff_exists.1 hfi
    have hrest : (visitEvents m f rest).2 = true :=
      ih (fun w hw => h w (List.mem_cons_of_mem _ hw))
    simp only [visitEvents]
    cases hw : walkFn m p (some x) er
    · exact absurd hw walkFn_some_ne_panik
    · exact hrest
    · exact hrest
    · exact hrest
    · exact hrest
    · exact hrest

theorem walkRoots_shape {m : String → Bool} {f : String} {visits : String → List Visit} :
    ∀ {rs : List String}, ∀ e ∈ (walkRoots m f visits rs).1,
      (∃ p, e = Event.addFileTo f p) ∨ (∃ s, e = Event.logErr s) ∨
      (∃ r, e = Event.logIndexRoot r) := by
  intro rs
  induction rs with
  | nil => intro e he; simp [walkRoots] at he
  | cons r rs ih =>
    intro e he
    simp only [walkRoots] at he
    by_cases h : (visitEvents m f (visits r)).2 = true
    · rw [if_pos h] at he
      rcases List.mem_cons.1 he with rfl | he
      · exact Or.inr (Or.inr ⟨r, rfl⟩)
      · rcases List.mem_append.1 he with he | he
        · rcases visitEvents_shape e he with h1 | h1
          · exact Or.inl h1
          · exact Or.inr (Or.inl h1)
        · exact ih e he
    · rw [if_neg h] at he
      rcases List.mem_cons.1 he with rfl | he
      · exact Or.inr (Or.inr ⟨r, rfl⟩)
      · rcases visitEvents_shape e he with h1 | h1
        · exact Or.inl h1
        · exact Or.inr (Or.inl h1)

theorem walkRoots_ok {m : String → Bool} {f : String} {visits : String → List Visit} :
    ∀ {rs : List String}, (∀ r ∈ rs, ∀ v ∈ visits r, (v.2.1).isSome = true) →
      (walkRoots m f visits rs).2 = true := by
  intro rs
  induction rs with
  | nil => intro _; rfl
  | cons r rs ih =>
    intro h
    have h1 : (visitEvents m f (visits r)).2 = true :=
      visitEvents_ok (h r (List.mem_cons_self _ _))
    simp only [walkRoots, if_pos h1]
    exact ih (fun q hq => h q (List.mem_cons_of_mem _ hq))

theorem buildPhase_ne_fatal {fl : Flags} {env : Env} {pats raw : List String} :
    (buildPhase fl env pats raw).2 ≠ ExitKind.fatal := by
  simp only [buildPhase]
  split_ifs <;> simp

theorem buildPhase_eq_of_ok {fl : Flags} {env : Env} {pats raw : List String}
    (hc : (compilePhase env.compileOk pats).2 = true)
    (hw : (walkRoots (anyRegexpMatches env.rmatch pats)
        (stagingPath env.masterPath (resetMode fl.reset env.masterExists))
        env.walkVisits (resolveArgs env.absResolve raw)).2 = true) :
    buildPhase fl env pats raw =
      (resolveEvents env.absResolve raw ++ [Event.statMaster env.masterPath] ++
        (compilePhase env.compileOk pats).1 ++
        [Event.createIndex (stagingPath env.masterPath (resetMode fl.reset env.masterExists)),
         Event.addPathsTo (stagingPath env.masterPath (resetMode fl.reset env.masterExists))
           (resolveArgs env.absResolve raw)] ++
        (walkRoots (anyRegexpMatches env.rmatch pats)
          (stagingPath env.masterPath (resetMode fl.reset env.masterExists))
          env.walkVisits (resolveArgs env.absResolve raw)).1 ++
        [Event.flushIndexAt (stagingPath env.masterPath (resetMode fl.reset env.masterExists))] ++
        mergePhase (resetMode fl.reset env.masterExists) env.masterPath
          (stagingPath env.masterPath (resetMode fl.reset env.masterExists))
          env.removeOk env.renameOk ++
        [Event.logDone], ExitKind.ok) := by
  simp only [buildPhase, hc, hw, if_true]

theorem buildPhase_eq_of_bad {fl : Flags} {env : Env} {pats raw : List String}
    (hc : (compilePhase env.compileOk pats).2 = false) :
    buildPhase fl env pats raw =
      (resolveEvents env.absResolve raw ++ [Event.statMaster env.masterPath] ++
        (compilePhase env.compileOk pats).1 ++ [Event.panicEvt], ExitKind.panicked) := by
  simp only [buildPhase, hc]
  simp

theorem buildPhase_eq_of_walkbad {fl : Flags} {env : Env} {pats raw : List String}
    (hc : (compilePhase env.compileOk pats).2 = true)
    (hw : (walkRoots (anyRegexpMatches env.rmatch pats)
        (stagingPath env.masterPath (resetMode fl.reset env.masterExists))
        env.walkVisits (resolveArgs env.absResolve raw)).2 = false) :
    buildPhase fl env pats raw =
      (resolveEvents env.absResolve raw ++ [Event.statMaster env.masterPath] ++
        (compilePhase env.compileOk pats).1 ++
        [Event.createIndex (stagingPath env.masterPath (resetMode fl.reset env.masterExists)),
         Event.addPathsTo (stagingPath env.masterPath (resetMode fl.reset env.masterExists))
           (resolveArgs env.absResolve raw)] ++
        (walkRoots (anyRegexpMatches env.rmatch pats)
          (stagingPath env.masterPath (resetMode fl.reset env.masterExists))
          env.walkVisits (resolveArgs env.absResolve raw)).1 ++
        [Event.panicEvt], ExitKind.panicked) := by
  simp only [buildPhase, hc, hw, if_true]
  simp

theorem stagingPath_reset (m : String) : stagingPath m true = m := rfl

theorem stagingPath_incr (m : String) : stagingPath m false = m ++ "~" := rfl

theorem mergePhase_reset (master file : String) (a b : Bool) :
    mergePhase true master file a b = [] := rfl

theorem mergePhase_incr (master file : String) (a b : Bool) :
    mergePhase false master file a b =
      [Event.mergeIndex (file ++ "~") master file,
       Event.removeFile file a,
       Event.renameFile (file ++ "~") master b] := rfl

theorem buildPhase_mutation {fl : Flags} {env : Env} {pats raw : List String}
    (hincr : resetMode fl.reset env.masterExists = false) :
    ∀ e ∈ (buildPhase fl env pats raw).1, mutatesPath e env.masterPath = true →
      e = Event.renameFile ((env.masterPath ++ "~") ++ "~") env.masterPath true ∧
        env.renameOk = true := by
  have hfile : stagingPath env.masterPath false = env.masterPath ++ "~" := rfl
  intro e he hm
  by_cases hc : (compilePhase env.compileOk pats).2 = true
  · by_cases hw : (walkRoots (anyRegexpMatches env.rmatch pats)
        (stagingPath env.masterPath (resetMode fl.reset env.masterExists))
        env.walkVisits (resolveArgs env.absResolve raw)).2 = true
    · rw [buildPhase_eq_of_ok hc hw] at he
      simp only [hfile, hincr, List.append_assoc, List.mem_append, List.mem_cons,
        List.mem_singleton, List.not_mem_nil, or_false] at he
      rcases he with he | he | he | (he | he) | he | he | he | he
      · rcases resolveEvents_shape e he with ⟨s, rfl⟩
        simp [mutatesPath] at hm
      · subst he; simp [mutatesPath] at hm
      · rcases compilePhase_shape e he with ⟨s, rfl⟩
        simp [mutatesPath] at hm
      · subst he
        simp only [mutatesPath, decide_eq_true_eq] at hm
        exact absurd hm (append_tilde_ne env.masterPath)
      · subst he
        simp only [mutatesPath, decide_eq_true_eq] at hm
        exact absurd hm (append_tilde_ne env.masterPath)
      · rcases walkRoots_shape e he with ⟨p, rfl⟩ | ⟨s, rfl⟩ | ⟨r, rfl⟩
        · simp only [mutatesPath, decide_eq_true_eq] at hm
          exact absurd hm (append_tilde_ne env.masterPath)
        · simp [mutatesPath] at hm
        · simp [mutatesPath] at hm
      · subst he
        simp only [mutatesPath, decide_eq_true_eq] at hm
        exact absurd hm (append_tilde_ne env.masterPath)
      · simp only [hincr, hfile, mergePhase_incr, List.mem_cons,
          List.mem_singleton, List.not_mem_nil, or_false] at he
        rcases he with he | he | he
        · subst he
          simp only [mutatesPath, decide_eq_true_eq] at hm
          exact absurd hm (append_tilde_tilde_ne env.masterPath)
        · subst he
          simp only [mutatesPath, Bool.and_eq_true, decide_eq_true_eq] at hm
          exact absurd hm.2 (append_tilde_ne env.masterPath)
        · subst he
          simp only [mutatesPath, Bool.and_eq_true, decide_eq_true_eq] at hm
          refine ⟨?_, hm.1⟩
          rw [hm.1]
      · subst he; simp [mutatesPath] at hm
    · rw [buildPhase_eq_of_walkbad hc (Bool.not_eq_true _ ▸ hw)] at he
      simp only [hfile, hincr, List.append_assoc, List.mem_append, List.mem_cons,
        List.mem_singleton, List.not_mem_nil, or_false] at he
      rcases he with he | he | he | (he | he) | he | he
      · rcases resolveEvents_shape e he with ⟨s, rfl⟩
        simp [mutatesPath] at hm
      · subst he; simp [mutatesPath] at hm
      · rcases compilePhase_shape e he with ⟨s, rfl⟩
        simp [mutatesPath] at hm
      · subst he
        simp only [mutatesPath, decide_eq_true_eq] at hm
        exact absurd hm (append_tilde_ne env.masterPath)
      · subst he
        simp only [mutatesPath, decide_eq_true_eq] at hm
        exact absurd hm (append_tilde_ne env.masterPath)
      · rcases walkRoots_shape e he with ⟨p, rfl⟩ | ⟨s, rfl⟩ | ⟨r, rfl⟩
        · simp only [mutatesPath, decide_eq_true_eq] at hm
          exact absurd hm (append_tilde_ne env.masterPath)
        · simp [mutatesPath] at hm
        · simp [mutatesPath] at hm
      · subst he; simp [mutatesPath] at hm
  · rw [buildPhase_eq_of_bad (Bool.not_eq_true _ ▸ hc)] at he
    simp only [List.append_assoc, List.mem_append, List.mem_cons,
      List.mem_singleton, List.not_mem_nil, or_false] at he
    rcases he with he | he | he | he
    · rcases resolveEvents_shape e he with ⟨s, rfl⟩
      simp [mutatesPath] at hm
    · subst he; simp [mutatesPath] at hm
    · rcases compilePhase_shape e he with ⟨s, rfl⟩
      simp [mutatesPath] at hm
    · subst he; simp [mutatesPath] at hm

theorem mergeIndex_not_mem_reset {fl : Flags} {env : Env} {pats raw : List String}
    (hres : resetMode fl.reset env.masterExists = true) :
    ∀ d a b, Event.mergeIndex d a b ∉ (buildPhase fl env pats raw).1 := by
  intro d a b he
  by_cases hc : (compilePhase env.compileOk pats).2 = true
  · by_cases hw : (walkRoots (anyRegexpMatches env.rmatch pats)
        (stagingPath env.masterPath (resetMode fl.reset env.masterExists))
        env.walkVisits (resolveArgs env.absResolve raw)).2 = true
    · rw [buildPhase_eq_of_ok hc hw] at he
      simp only [hres, stagingPath_reset, mergePhase_reset, List.append_assoc, List.mem_append,
        List.mem_cons, List.mem_singleton, List.not_mem_nil, List.append_nil, or_false] at he
      rcases he with he | he | he | (he | he) | he | he | he
      · rcases resolveEvents_shape _ he with ⟨s, h⟩; exact Event.noConfusion h
      · exact Event.noConfusion he
      · rcases compilePhase_shape _ he with ⟨s, h⟩; exact Event.noConfusion h
      · exact Event.noConfusion he
      · exact Event.noConfusion he
      · rcases walkRoots_shape _ he with ⟨p, h⟩ | ⟨s, h⟩ | ⟨r, h⟩ <;> exact Event.noConfusion h
      · exact Event.noConfusion he
      · exact Event.noConfusion he
    · rw [buildPhase_eq_of_walkbad hc (Bool.not_eq_true _ ▸ hw)] at he
      simp only [List.append_assoc, List.mem_append, List.mem_cons,
        List.mem_singleton, List.not_mem_nil, or_false] at he
      rcases he with he | he | he | (he | he) | he | he
      · rcases resolveEvents_shape _ he with ⟨s, h⟩; exact Event.noConfusion h
      · exact Event.noConfusion he
      · rcases compilePhase_shape _ he with ⟨s, h⟩; exact Event.noConfusion h
      · exact Event.noConfusion he
      · exact Event.noConfusion he
      · rcases walkRoots_shape _ he with ⟨p, h⟩ | ⟨s, h⟩ | ⟨r, h⟩ <;> exact Event.noConfusion h
      · exact Event.noConfusion he
  · rw [buildPhase_eq_of_bad (Bool.not_eq_true _ ▸ hc)] at he
    simp only [List.append_assoc, List.mem_append, List.mem_cons,
      List.mem_singleton, List.not_mem_nil, or_false] at he
    rcases he with he | he | he | he
    · rcases resolveEvents_shape _ he with ⟨s, h⟩; exact Event.noConfusion h
    · exact Event.noConfusion he
    · rcases compilePhase_shape _ he with ⟨s, h⟩; exact Event.noConfusion h
    · exact Event.noConfusion he

theorem mergeIndex_mem_incr {fl : Flags} {env : Env} {pats raw : List String}
    (hincr : resetMode fl.reset env.masterExists = false)
    (hc : (compilePhase env.compileOk pats).2 = true)
    (hw : (walkRoots (anyRegexpMatches env.rmatch pats)
        (stagingPath env.masterPath (resetMode fl.reset env.masterExists))
        env.walkVisits (resolveArgs env.absResolve raw)).2 = true) :
    Event.mergeIndex ((env.masterPath ++ "~") ++ "~") env.masterPath (env.masterPath ++ "~")
      ∈ (buildPhase fl env pats raw).1 := by
  rw [buildPhase_eq_of_ok hc hw]
  simp [hincr, stagingPath_incr, mergePhase_incr, List.mem_append]

theorem afterProfile_decomp (fl : Flags) (env : Env) (pats : List String)
    (hr : fl.reset = true → fl.args ≠ [])
    (hm : fl.args = [] → env.masterExists = true) :
    ∃ pre0,
      afterProfile fl env pats =
        (pre0 ++ (buildPhase fl env pats
          (if fl.args.isEmpty then env.recordedPaths else fl.args)).1,
         (buildPhase fl env pats
          (if fl.args.isEmpty then env.recordedPaths else fl.args)).2) ∧
      ∀ e ∈ pre0, e = Event.openIndex env.masterPath := by
  have hro : (fl.reset && fl.args.isEmpty) = false := by
    cases hR : fl.reset with
    | false => simp
    | true =>
      have hne := hr hR
      cases hA : fl.args with
      | nil => exact absurd hA hne
      | cons a as => simp [hA]
  by_cases hargs : fl.args.isEmpty = true
  · have hmx : env.masterExists = true := hm (List.isEmpty_iff.1 hargs)
    have hRfalse : fl.reset = false := by simpa [hargs] using hro
    refine ⟨[Event.openIndex env.masterPath], ?_, ?_⟩
    · simp [afterProfile, indexOpen, hargs, hRfalse, hmx]
    · intro e he
      simpa using List.mem_singleton.1 he
  · have hargs2 : fl.args.isEmpty = false := by simpa using hargs
    refine ⟨[], ?_, ?_⟩
    · simp [afterProfile, hargs2, hro]
    · intro e he; simp at he

theorem cindexMain_decomp (fl : Flags) (env : Env)
    (hl : fl.list = false)
    (hr : fl.reset = true → fl.args ≠ [])
    (hm : fl.args = [] → env.masterExists = true)
    (hp : ∀ p, fl.cpuprofile = some p → env.profileCreateOk = true) :
    ∃ pre post,
      (cindexMain fl env).1 =
        pre ++ (buildPhase fl env (builtinExcludePatterns ++ fl.exclude)
          (if fl.args.isEmpty then env.recordedPaths else fl.args)).1 ++ post ∧
      (cindexMain fl env).2 =
        (buildPhase fl env (builtinExcludePatterns ++ fl.exclude)
          (if fl.args.isEmpty then env.recordedPaths else fl.args)).2 ∧
      (∀ e ∈ pre, e = Event.openIndex env.masterPath ∨
        (∃ q, e = Event.createProfile q ∧ fl.cpuprofile = some q) ∨
        e = Event.startProfile) ∧
      (∀ e ∈ post, e = Event.stopProfile) := by
  obtain ⟨pre0, hA1, hA2⟩ :=
    afterProfile_decomp fl env (builtinExcludePatterns ++ fl.exclude) hr hm
  cases hcp : fl.cpuprofile with
  | none =>
    refine ⟨pre0, [], ?_, ?_, ?_, ?_⟩
    · simp [cindexMain, hl, hcp, hA1]
    · simp [cindexMain, hl, hcp, hA1]
    · intro e he; exact Or.inl (hA2 e he)
    · intro e he; simp at he
  | some p =>
    have hok : env.profileCreateOk = true := hp p hcp
    refine ⟨Event.createProfile p :: Event.startProfile :: pre0,
      [Event.stopProfile], ?_, ?_, ?_, ?_⟩
    · simp only [cindexMain, hl, Bool.false_eq_true, if_false, hcp, hok, if_true,
        hA1, if_neg buildPhase_ne_fatal, List.cons_append, List.append_assoc]
    · simp [cindexMain, hl, hcp, hok, hA1]
    · intro e he
      rcases List.mem_cons.1 he with rfl | he
      · exact Or.inr (Or.inl ⟨p, rfl, rfl⟩)
      · rcases List.mem_cons.1 he with rfl | he
        · exact Or.inr (Or.inr rfl)
        · exact Or.inl (hA2 e he)
    · intro e he
      simpa using List.mem_singleton.1 he

theorem buildPhase_stat_decomp {fl : Flags} {env : Env} {pats raw : List String} :
    ∃ tail, (buildPhase fl env pats raw).1 =
      resolveEvents env.absResolve raw ++ Event.statMaster env.masterPath :: tail := by
  by_cases hc : (compilePhase env.compileOk pats).2 = true
  · by_cases hw : (walkRoots (anyRegexpMatches env.rmatch pats)
        (stagingPath env.masterPath (resetMode fl.reset env.masterExists))
        env.walkVisits (resolveArgs env.absResolve raw)).2 = true
    · refine ⟨(compilePhase env.compileOk pats).1 ++
        [Event.createIndex (stagingPath env.masterPath (resetMode fl.reset env.masterExists)),
         Event.addPathsTo (stagingPath env.masterPath (resetMode fl.reset env.masterExists))
           (resolveArgs env.absResolve raw)] ++
        (walkRoots (anyRegexpMatches env.rmatch pats)
          (stagingPath env.masterPath (resetMode fl.reset env.masterExists))
          env.walkVisits (resolveArgs env.absResolve raw)).1 ++
        [Event.flushIndexAt (stagingPath env.masterPath (resetMode fl.reset env.masterExists))] ++
        mergePhase (resetMode fl.reset env.masterExists) env.masterPath
          (stagingPath env.masterPath (resetMode fl.reset env.masterExists))
          env.removeOk env.renameOk ++
        [Event.logDone], ?_⟩
      rw [buildPhase_eq_of_ok hc hw]
      simp [List.append_assoc]
    · refine ⟨(compilePhase env.compileOk pats).1 ++
        [Event.createIndex (stagingPath env.masterPath (resetMode fl.reset env.masterExists)),
         Event.addPathsTo (stagingPath env.masterPath (resetMode fl.reset env.masterExists))
           (resolveArgs env.absResolve raw)] ++
        (walkRoots (anyRegexpMatches env.rmatch pats)
          (stagingPath env.masterPath (resetMode fl.reset env.masterExists))
          env.walkVisits (resolveArgs env.absResolve raw)).1 ++
        [Event.panicEvt], ?_⟩
      rw [buildPhase_eq_of_walkbad hc (Bool.not_eq_true _ ▸ hw)]
      simp [List.append_assoc]
  · refine ⟨(compilePhase env.compileOk pats).1 ++ [Event.panicEvt], ?_⟩
    rw [buildPhase_eq_of_bad (Bool.not_eq_true _ ▸ hc)]
    simp [List.append_assoc]

/-! The claims. -/

/-- C2: the claim states that a per-entry traversal error is logged, the
entry skipped, and traversal continues — in particular that the walk
callback never faults when invoked with an error and absent file info. The
code violates this: the callback evaluates `info.IsDir()` (line 178) before
the `err != nil` check (line 194), so a visit carrying a nil `info` — which
`filepath.Walk` produces whenever `lstat` fails, e.g. for a root path that
does not exist — dereferences a nil interface and panics, aborting the
whole run instead of logging and continuing (the guard `info != nil` at
line 198 shows the intended handling). -/
theorem c2_nil_info_panics :
    walkFn (fun _ => false) "/nonexistent" none
        (some "lstat /nonexistent: no such file or directory") = WalkOutcome.panik ∧
      (cindexMain flagsIncrRun envNilInfoVisit).2 = ExitKind.panicked := by
  exact ⟨rfl, by decide⟩

/-- C6: reset mode holds exactly when reset was requested or no master
artifact exists; in reset mode the staging path equals the master path and
no merge event ever occurs in the build pipeline, while in incremental mode
the staging path is the master path plus "~", distinct from the master, and
the merge event occurs whenever the build completes its walk. -/
theorem c6_mode_selection (fl : Flags) (env : Env) (raw : List String) :
    (resetMode fl.reset env.masterExists = true ↔
      (fl.reset = true ∨ env.masterExists = false)) ∧
    (resetMode fl.reset env.masterExists = true →
      stagingPath env.masterPath (resetMode fl.reset env.masterExists) = env.masterPath ∧
      ∀ d a b, Event.mergeIndex d a b ∉
        (buildPhase fl env (builtinExcludePatterns ++ fl.exclude) raw).1) ∧
    (resetMode fl.reset env.masterExists = false →
      stagingPath env.masterPath (resetMode fl.reset env.masterExists) =
        env.masterPath ++ "~" ∧
      env.masterPath ++ "~" ≠ env.masterPath ∧
      ((compilePhase env.compileOk (builtinExcludePatterns ++ fl.exclude)).2 = true →
        (walkRoots (anyRegexpMatches env.rmatch (builtinExcludePatterns ++ fl.exclude))
          (stagingPath env.masterPath (resetMode fl.reset env.masterExists))
          env.walkVisits (resolveArgs env.absResolve raw)).2 = true →
        Event.mergeIndex ((env.masterPath ++ "~") ++ "~") env.masterPath
          (env.masterPath ++ "~")
          ∈ (buildPhase fl env (builtinExcludePatterns ++ fl.exclude) raw).1)) := by
  refine ⟨?_, ?_, ?_⟩
  · cases fl.reset <;> cases env.masterExists <;> simp [resetMode]
  · intro h
    exact ⟨by rw [h]; rfl, mergeIndex_not_mem_reset h⟩
  · intro h
    refine ⟨by rw [h]; rfl, append_tilde_ne env.masterPath, ?_⟩
    intro hc hw
    exact mergeIndex_mem_incr h hc hw

/-- C6 witness: the theorem applied to the concrete incremental run
`cindex a` against an existing master `"M"`. -/
theorem c6_witness :
    stagingPath "M" (resetMode false true) = "M" ++ "~" ∧
    Event.mergeIndex (("M" ++ "~") ++ "~") "M" ("M" ++ "~") ∈
      (buildPhase flagsIncrRun baseEnv
        (builtinExcludePatterns ++ flagsIncrRun.exclude) flagsIncrRun.args).1 := by
  have h := (c6_mode_selection flagsIncrRun baseEnv flagsIncrRun.args).2.2 (by decide)
  exact ⟨h.1, h.2.2 (by decide) (by decide)⟩

/-- C7: for every matcher (hence independently of the configured pattern
set), an entry not excluded by the directory-pattern rule whose final path
component begins with '.', '#' or '~', or ends with '~', is classified
skip-subtree when it is a directory and skip-entry otherwise. -/
theorem c7_hidden_entry_skip (matcher : String → Bool) (path : String)
    (fi : FileInfo) (err : Option String)
    (hgate : (fi.isDir && matcher path) = false)
    (hhid : isHiddenName (lastComponent path) = true) :
    walkFn matcher path (some fi) err =
      if fi.isDir then WalkOutcome.skipDir else WalkOutcome.skipEntry := by
  have hne : lastComponent path ≠ "" := by
    intro h
    rw [h] at hhid
    exact absurd hhid (by decide)
  have hcond : (lastComponent path != "" && isHiddenName (lastComponent path)) = true := by
    rw [Bool.and_eq_true]
    exact ⟨bne_iff_ne.2 hne, hhid⟩
  simp only [walkFn, hgate, Bool.false_eq_true, if_false, hcond, if_true]

/-- C7 witness: the theorem applied to the file `/a/.git` under a matcher
that matches everything (the gate fails because the entry is not a
directory), classifying it skip-entry. -/
theorem c7_witness :
    walkFn (fun _ => true) "/a/.git"
      (some { isDir := false, isRegular := true }) none = WalkOutcome.skipEntry := by
  have h := c7_hidden_entry_skip (fun _ => true) "/a/.git"
    { isDir := false, isRegular := true } none (by decide) (by decide)
  exact h.trans (by decide)

/-- C8 (amended): the resolver's output presented to the walker is sorted
in Go's string order, contains no empty entry (in particular no leading
one), every element is the resolution of some input argument, and an
argument whose resolution fails is logged, replaced by the empty string and
dropped rather than aborting the run; adjacent duplicates are, however, NOT
removed — two equal arguments stay as two equal adjacent roots. -/
theorem c8_resolver_sorted_no_leading_empty (abs : String → Option String)
    (args : List String) :
    List.Pairwise (fun x y => strLe x y = true) (resolveArgs abs args) ∧
    "" ∉ resolveArgs abs args ∧
    (∀ x ∈ resolveArgs abs args, ∃ a ∈ args, resolveOne abs a = x) ∧
    (∀ a ∈ args, abs a = none →
      resolveOne abs a = "" ∧ Event.logErr a ∈ resolveEvents abs args) := by
  have hsorted := sortStrings_sorted (args.map (resolveOne abs))
  refine ⟨?_, ?_, ?_, ?_⟩
  · exact dropLeadingEmpty_pairwise hsorted
  · exact empty_not_mem_dropLeadingEmpty hsorted
  · intro x hx
    have hx2 : x ∈ sortStrings (args.map (resolveOne abs)) :=
      dropLeadingEmpty_subset x hx
    rcases List.mem_map.1 (mem_sortStrings.1 hx2) with ⟨a, ha, hax⟩
    exact ⟨a, ha, hax⟩
  · intro a ha hnone
    constructor
    · simp [resolveOne, hnone]
    · simp only [resolveEvents, List.mem_filterMap]
      exact ⟨a, ha, by simp [hnone]⟩

/-- C8 counterexample: with two identical resolvable arguments the
resolver's output contains the same root twice in adjacent positions, so it
is not deduplicated-by-sort-adjacency as the claim states. -/
theorem c8_counterexample :
    resolveArgs (fun a => some ("/" ++ a)) ["b", "b"] = ["/b", "/b"] ∧
    ¬ List.Nodup (resolveArgs (fun a => some ("/" ++ a)) ["b", "b"]) := by
  exact ⟨by decide, by decide⟩

/-- C8 witness: the theorem applied to a concrete argument list in which
`"x"` fails to resolve: no empty entry survives and the failure is logged. -/
theorem c8_witness :
    "" ∉ resolveArgs (fun a => if a = "x" then none else some a) ["b", "x", "a"] ∧
    Event.logErr "x" ∈
      resolveEvents (fun a => if a = "x" then none else some a) ["b", "x", "a"] := by
  have h := c8_resolver_sorted_no_leading_empty
    (fun a => if a = "x" then none else some a) ["b", "x", "a"]
  exact ⟨h.2.1, (h.2.2.2 "x" (by decide) (by decide)).2⟩

/-- C1 counterexample: in a reset-mode build run (`cindex -reset a` with
master `"M"` present) the staging artifact is created directly at the
master artifact's path — a mutating write to the master path that is not a
rename — falsifying the claim's "in every mode (reset and incremental)". -/
theorem c1_counterexample :
    Event.createIndex "M" ∈ (cindexMain flagsResetRun baseEnv).1 ∧
    mutatesPath (Event.createIndex "M") "M" = true ∧
    isRenameOnto (Event.createIndex "M") "M" = false := by
  exact ⟨by decide, by decide, by decide⟩

/-- C1 (amended): in incremental mode — master exists, reset not requested
(and the profile destination, if any, is not the master path) — the only
event of the run that mutates the file at the master artifact's path is the
single successful rename of the fully-formed merged artifact onto the
master; in reset mode, by contrast, the index writer writes the staging
artifact directly at the master path. -/
theorem c1_incremental_master_only_rename (fl : Flags) (env : Env)
    (hl : fl.list = false) (hr : fl.reset = false) (hm : env.masterExists = true)
    (hprof : fl.cpuprofile ≠ some env.masterPath) :
    ∀ e ∈ (cindexMain fl env).1, mutatesPath e env.masterPath = true →
      e = Event.renameFile ((env.masterPath ++ "~") ++ "~") env.masterPath true := by
  intro e he hmut
  have hincr : resetMode fl.reset env.masterExists = false := by
    simp [resetMode, hr, hm]
  have hmain : ∀ hp2 : (∀ p, fl.cpuprofile = some p → env.profileCreateOk = true),
      e = Event.renameFile ((env.masterPath ++ "~") ++ "~") env.masterPath true := by
    intro hp2
    obtain ⟨pre, post, htr, _, hpre, hpost⟩ :=
      cindexMain_decomp fl env hl (by simp [hr]) (fun _ => hm) hp2
    rw [htr] at he
    rcases List.mem_append.1 he with he2 | he2
    · rcases List.mem_append.1 he2 with he3 | he3
      · rcases hpre e he3 with rfl | ⟨q, rfl, hq⟩ | rfl
        · simp [mutatesPath] at hmut
        · simp only [mutatesPath, decide_eq_true_eq] at hmut
          rw [hmut] at hq
          exact absurd hq hprof
        · simp [mutatesPath] at hmut
      · exact (buildPhase_mutation hincr e he3 hmut).1
    · rw [hpost e he2] at hmut
      simp [mutatesPath] at hmut
  cases hcp : fl.cpuprofile with
  | none =>
    exact hmain (fun p hq => Option.noConfusion (hcp.symm.trans hq))
  | some p =>
    cases hok : env.profileCreateOk with
    | true => exact hmain (fun _ _ => hok)
    | false =>
      have h1 : (cindexMain fl env).1 = [Event.createProfile p] := by
        simp [cindexMain, hl, hcp, hok]
      rw [h1] at he
      rcases List.mem_singleton.1 he with rfl
      simp only [mutatesPath, decide_eq_true_eq] at hmut
      rw [hmut] at hcp
      exact absurd hcp hprof

/-- C1 witness: the amended theorem applied to the concrete incremental run
`cindex a` against master `"M"`, at the rename event itself. -/
theorem c1_witness :
    Event.renameFile "M~~" "M" true =
      Event.renameFile (("M" ++ "~") ++ "~") "M" true := by
  exact c1_incremental_master_only_rename flagsIncrRun baseEnv rfl rfl rfl
    (by decide) (Event.renameFile "M~~" "M" true) (by decide) (by decide)

/-- C3 counterexample: in the concrete incremental run `cindex a` the
staging artifact is removed strictly before the merged artifact is renamed
onto the master, falsifying the claim that the staging artifact is deleted
after that rename and not before it. -/
theorem c3_counterexample :
    Event.removeFile "M~" true ∈ (cindexMain flagsIncrRun baseEnv).1 ∧
    Event.renameFile "M~~" "M" true ∈ (cindexMain flagsIncrRun baseEnv).1 ∧
    (cindexMain flagsIncrRun baseEnv).1.indexOf (Event.removeFile "M~" true) <
      (cindexMain flagsIncrRun baseEnv).1.indexOf (Event.renameFile "M~~" "M" true) := by
  exact ⟨by decide, by decide, by decide⟩

/-- C3 (amended): in an incremental run that reaches the merge phase, the
combined artifact is written to a second temporary path (master + "~~"),
distinct from both the master and the staging artifact, and only afterwards
renamed onto the master; the staging artifact used as merge input is,
however, deleted between the merge and that rename — after the merge
completes but before the rename, not after it. -/
theorem c3_merge_remove_rename_order (fl : Flags) (env : Env)
    (hl : fl.list = false) (hr : fl.reset = false) (hm : env.masterExists = true)
    (hp : ∀ p, fl.cpuprofile = some p → env.profileCreateOk = true)
    (hc : ∀ q ∈ builtinExcludePatterns ++ fl.exclude, env.compileOk q = true)
    (hw : ∀ r, ∀ v ∈ env.walkVisits r, (v.2.1).isSome = true) :
    ∃ pre post, (cindexMain fl env).1 =
      pre ++
        [Event.mergeIndex ((env.masterPath ++ "~") ++ "~") env.masterPath
           (env.masterPath ++ "~"),
         Event.removeFile (env.masterPath ++ "~") env.removeOk,
         Event.renameFile ((env.masterPath ++ "~") ++ "~") env.masterPath
           env.renameOk] ++ post ∧
      (env.masterPath ++ "~") ++ "~" ≠ env.masterPath ∧
      (env.masterPath ++ "~") ++ "~" ≠ env.masterPath ++ "~" := by
  obtain ⟨pre, post, htr, _, _, _⟩ :=
    cindexMain_decomp fl env hl (by simp [hr]) (fun _ => hm) hp
  have hincr : resetMode fl.reset env.masterExists = false := by
    simp [resetMode, hr, hm]
  have hcomp : (compilePhase env.compileOk (builtinExcludePatterns ++ fl.exclude)).2 = true :=
    compilePhase_ok hc
  have hwalk : (walkRoots
      (anyRegexpMatches env.rmatch (builtinExcludePatterns ++ fl.exclude))
      (stagingPath env.masterPath (resetMode fl.reset env.masterExists))
      env.walkVisits (resolveArgs env.absResolve
        (if fl.args.isEmpty then env.recordedPaths else fl.args))).2 = true :=
    walkRoots_ok (fun r _ => hw r)
  rw [buildPhase_eq_of_ok hcomp hwalk] at htr
  simp only [hincr, stagingPath_incr, mergePhase_incr] at htr
  refine ⟨pre ++ (resolveEvents env.absResolve
      (if fl.args.isEmpty then env.recordedPaths else fl.args) ++
      [Event.statMaster env.masterPath] ++
      (compilePhase env.compileOk (builtinExcludePatterns ++ fl.exclude)).1 ++
      [Event.createIndex (env.masterPath ++ "~"),
       Event.addPathsTo (env.masterPath ++ "~")
         (resolveArgs env.absResolve
           (if fl.args.isEmpty then env.recordedPaths else fl.args))] ++
      (walkRoots (anyRegexpMatches env.rmatch (builtinExcludePatterns ++ fl.exclude))
        (env.masterPath ++ "~") env.walkVisits
        (resolveArgs env.absResolve
          (if fl.args.isEmpty then env.recordedPaths else fl.args))).1 ++
      [Event.flushIndexAt (env.masterPath ++ "~")]),
    [Event.logDone] ++ post, ?_,
    append_tilde_tilde_ne env.masterPath, append_tilde_ne (env.masterPath ++ "~")⟩
  rw [htr]
  simp [List.append_assoc]

/-- C3 witness: the amended theorem applied to the concrete incremental run
`cindex a` against master `"M"`. -/
theorem c3_witness :
    ∃ pre post, (cindexMain flagsIncrRun baseEnv).1 =
      pre ++
        [Event.mergeIndex (("M" ++ "~") ++ "~") "M" ("M" ++ "~"),
         Event.removeFile ("M" ++ "~") true,
         Event.renameFile (("M" ++ "~") ++ "~") "M" true] ++ post ∧
      ("M" ++ "~") ++ "~" ≠ "M" ∧
      ("M" ++ "~") ++ "~" ≠ "M" ++ "~" := by
  exact c3_merge_remove_rename_order flagsIncrRun baseEnv rfl rfl rfl
    (fun _ _ => rfl) (by decide) (fun r v hv => absurd hv (List.not_mem_nil v))

/-- C4 counterexample: with profiling enabled and a malformed operator
pattern (`cindex -cpuprofile p -exclude ( a`), the run creates the profile
file (filesystem I/O that mutates persistent state) and stats the master
before the pattern-compilation panic, falsifying the claim that the
compilation failure precedes any filesystem I/O. -/
theorem c4_counterexample :
    Event.panicEvt ∈ (cindexMain flagsProfiledBadPattern envBadPattern).1 ∧
    (cindexMain flagsProfiledBadPattern envBadPattern).1.indexOf
        (Event.createProfile "p") <
      (cindexMain flagsProfiledBadPattern envBadPattern).1.indexOf Event.panicEvt ∧
    (cindexMain flagsProfiledBadPattern envBadPattern).1.indexOf
        (Event.statMaster "M") <
      (cindexMain flagsProfiledBadPattern envBadPattern).1.indexOf Event.panicEvt ∧
    (cindexMain flagsProfiledBadPattern envBadPattern).2 = ExitKind.panicked := by
  exact ⟨by decide, by decide, by decide, by decide⟩

/-- C4 (amended): a malformed pattern in the configured set makes every run
that reaches the build pipeline panic (fatal, non-zero exit), and no event
of such a run touches any index artifact — the panic precedes the creation
of the staging artifact and every walk, flush, merge, remove and rename.
The failure does not, however, precede the LIST and RESET-ONLY paths, the
profile-file creation, the recovery open, or the master stat. -/
theorem c4_bad_pattern_aborts_before_build (fl : Flags) (env : Env) (pat : String)
    (hl : fl.list = false)
    (hr : fl.reset = true → fl.args ≠ [])
    (hm : fl.args = [] → env.masterExists = true)
    (hp : ∀ p, fl.cpuprofile = some p → env.profileCreateOk = true)
    (hpat : pat ∈ builtinExcludePatterns ++ fl.exclude)
    (hbad : env.compileOk pat = false) :
    (cindexMain fl env).2 = ExitKind.panicked ∧
    ∀ e ∈ (cindexMain fl env).1, touchesIndex e = false := by
  obtain ⟨pre, post, htr, hek, hpre, hpost⟩ := cindexMain_decomp fl env hl hr hm hp
  have hcomp : (compilePhase env.compileOk (builtinExcludePatterns ++ fl.exclude)).2 = false :=
    compilePhase_bad hpat hbad
  constructor
  · rw [hek, buildPhase_eq_of_bad hcomp]
  · intro e he
    rw [htr, buildPhase_eq_of_bad hcomp] at he
    rcases List.mem_append.1 he with he | he
    · rcases List.mem_append.1 he with he | he
      · rcases hpre e he with rfl | ⟨q, rfl, _⟩ | rfl <;> rfl
      · simp only [List.append_assoc, List.mem_append, List.mem_cons,
          List.mem_singleton, List.not_mem_nil, or_false] at he
        rcases he with he | he | he | he
        · rcases resolveEvents_shape e he with ⟨s, rfl⟩; rfl
        · rw [he]; rfl
        · rcases compilePhase_shape e he with ⟨s, rfl⟩; rfl
        · rw [he]; rfl
    · rw [hpost e he]; rfl

/-- C4 witness: the amended theorem applied to the concrete run
`cindex -cpuprofile p -exclude ( a`. -/
theorem c4_witness :
    (cindexMain flagsProfiledBadPattern envBadPattern).2 = ExitKind.panicked := by
  exact (c4_bad_pattern_aborts_before_build flagsProfiledBadPattern envBadPattern "("
    rfl (fun h => absurd h (by decide)) (fun _ => rfl) (fun _ _ => rfl)
    (by decide) (by decide)).1

/-- C5 counterexample: in a concrete incremental run in which both the
staging deletion and the final rename fail, the process still completes
normally — exit kind ok and a final done log — falsifying the claim that
these artifact I/O failures are fatal with a non-zero exit (the source
discards both syscalls' errors). -/
theorem c5_counterexample :
    (cindexMain flagsIncrRun envSyscallsFail).2 = ExitKind.ok ∧
    Event.logDone ∈ (cindexMain flagsIncrRun envSyscallsFail).1 ∧
    Event.renameFile "M~~" "M" false ∈ (cindexMain flagsIncrRun envSyscallsFail).1 := by
  exact ⟨by decide, by decide, by decide⟩

/-- C5 (amended): failures of the index library's finalize and merge abort
inside the library, but the orchestrator itself discards the errors of the
staging deletion and of the final rename: in an incremental run whose
rename fails the process still completes normally with a zero exit and the
done log, and the master artifact is left untouched (no event of the run
mutates the master path). -/
theorem c5_rename_failure_ignored (fl : Flags) (env : Env)
    (hl : fl.list = false) (hr : fl.reset = false) (hm : env.masterExists = true)
    (hprof : fl.cpuprofile ≠ some env.masterPath)
    (hp : ∀ p, fl.cpuprofile = some p → env.profileCreateOk = true)
    (hc : ∀ q ∈ builtinExcludePatterns ++ fl.exclude, env.compileOk q = true)
    (hw : ∀ r, ∀ v ∈ env.walkVisits r, (v.2.1).isSome = true)
    (hren : env.renameOk = false) :
    (cindexMain fl env).2 = ExitKind.ok ∧
    Event.renameFile ((env.masterPath ++ "~") ++ "~") env.masterPath false
      ∈ (cindexMain fl env).1 ∧
    Event.logDone ∈ (cindexMain fl env).1 ∧
    ∀ e ∈ (cindexMain fl env).1, mutatesPath e env.masterPath = false := by
  obtain ⟨pre, post, htr, hek, hpre, hpost⟩ :=
    cindexMain_decomp fl env hl (by simp [hr]) (fun _ => hm) hp
  have hincr : resetMode fl.reset env.masterExists = false := by
    simp [resetMode, hr, hm]
  have hcomp : (compilePhase env.compileOk (builtinExcludePatterns ++ fl.exclude)).2 = true :=
    compilePhase_ok hc
  have hwalk : (walkRoots
      (anyRegexpMatches env.rmatch (builtinExcludePatterns ++ fl.exclude))
      (stagingPath env.masterPath (resetMode fl.reset env.masterExists))
      env.walkVisits (resolveArgs env.absResolve
        (if fl.args.isEmpty then env.recordedPaths else fl.args))).2 = true :=
    walkRoots_ok (fun r _ => hw r)
  refine ⟨?_, ?_, ?_, ?_⟩
  · rw [hek, buildPhase_eq_of_ok hcomp hwalk]
  · rw [htr, buildPhase_eq_of_ok hcomp hwalk]
    simp only [hincr, stagingPath_incr, mergePhase_incr, hren]
    simp [List.mem_append]
  · rw [htr, buildPhase_eq_of_ok hcomp hwalk]
    simp [List.mem_append]
  · intro e he
    rw [Bool.eq_false_iff]
    intro hmut
    rw [htr] at he
    rcases List.mem_append.1 he with he2 | he2
    · rcases List.mem_append.1 he2 with he3 | he3
      · rcases hpre e he3 with rfl | ⟨q, rfl, hq⟩ | rfl
        · simp [mutatesPath] at hmut
        · simp only [mutatesPath, decide_eq_true_eq] at hmut
          rw [hmut] at hq
          exact absurd hq hprof
        · simp [mutatesPath] at hmut
      · have h2 := (buildPhase_mutation hincr e he3 hmut).2
        rw [hren] at h2
        exact Bool.noConfusion h2
    · rw [hpost e he2] at hmut
      simp [mutatesPath] at hmut

/-- C5 witness: the amended theorem applied to the concrete run `cindex a`
in which the deletion and the rename both fail. -/
theorem c5_witness :
    (cindexMain flagsIncrRun envSyscallsFail).2 = ExitKind.ok ∧
    Event.logDone ∈ (cindexMain flagsIncrRun envSyscallsFail).1 := by
  have h := c5_rename_failure_ignored flagsIncrRun envSyscallsFail rfl rfl rfl
    (by decide) (fun _ _ => rfl) (by decide)
    (fun r v hv => absurd hv (List.not_mem_nil v)) rfl
  exact ⟨h.1, h.2.2.1⟩

/-- C9 counterexample: with profiling requested, a LIST run performs its
work (opening the master and printing) without ever starting the profiler,
and in a no-argument run against a missing master the profiler is started
but the process dies through the library's fatal exit without the deferred
stop ever running — falsifying both the "starts before any other work
(including the LIST path)" and the "stopped on every exit path" parts. -/
theorem c9_counterexample :
    Event.startProfile ∉ (cindexMain flagsListRun baseEnv).1 ∧
    Event.openIndex "M" ∈ (cindexMain flagsListRun baseEnv).1 ∧
    Event.startProfile ∈ (cindexMain flagsProfiledNoArgs envNoMaster).1 ∧
    Event.stopProfile ∉ (cindexMain flagsProfiledNoArgs envNoMaster).1 := by
  exact ⟨by decide, by decide, by decide, by decide⟩

/-- C9 (amended): when profiling is enabled and its file can be created,
every non-LIST run starts with the profile-creation and profiler-start
events before all other work, and whenever the run does not end in a
library fatal exit (normal completion or panic) its last event is the
deferred profiler stop; the LIST path, however, runs and exits before
profiling is ever set up, and a library fatal exit skips the deferred
stop. -/
theorem c9_profiling_wraps_non_list (fl : Flags) (env : Env) (p : String)
    (hl : fl.list = false) (hcp : fl.cpuprofile = some p)
    (hok : env.profileCreateOk = true) :
    (∃ rest, (cindexMain fl env).1 =
      Event.createProfile p :: Event.startProfile :: rest) ∧
    ((cindexMain fl env).2 ≠ ExitKind.fatal →
      (cindexMain fl env).1.getLast? = some Event.stopProfile) := by
  have hmain : cindexMain fl env =
      (Event.createProfile p :: Event.startProfile ::
        ((afterProfile fl env (builtinExcludePatterns ++ fl.exclude)).1 ++
          if (afterProfile fl env (builtinExcludePatterns ++ fl.exclude)).2 =
              ExitKind.fatal then []
          else [Event.stopProfile]),
       (afterProfile fl env (builtinExcludePatterns ++ fl.exclude)).2) := by
    simp [cindexMain, hl, hcp, hok]
  constructor
  · exact ⟨_, by rw [hmain]⟩
  · intro hne
    rw [hmain] at hne ⊢
    simp only at hne
    rw [if_neg hne]
    have hsplit : Event.createProfile p :: Event.startProfile ::
        ((afterProfile fl env (builtinExcludePatterns ++ fl.exclude)).1 ++
          [Event.stopProfile]) =
        (Event.createProfile p :: Event.startProfile ::
          (afterProfile fl env (builtinExcludePatterns ++ fl.exclude)).1) ++
          [Event.stopProfile] := by
      simp
    rw [hsplit, List.getLast?_concat]

/-- C9 witness: the amended theorem applied to the concrete profiled
incremental run `cindex -cpuprofile p a`. -/
theorem c9_witness :
    ∃ rest, (cindexMain flagsProfiledIncr baseEnv).1 =
      Event.createProfile "p" :: Event.startProfile :: rest := by
  exact (c9_profiling_wraps_non_list flagsProfiledIncr baseEnv "p" rfl rfl rfl).1

/-- C10: with zero positional arguments and neither list nor reset set, the
run opens the master artifact to recover its recorded roots strictly before
the stat that selects reset mode; consequently, when no master artifact
exists, the run consists only of the profiling prefix and that open of a
nonexistent path, ends in the library's fatal exit, and never touches any
index artifact — it cannot proceed to build from an empty root set. -/
theorem c10_open_before_stat (fl : Flags) (env : Env)
    (hl : fl.list = false) (hr : fl.reset = false) (ha : fl.args = [])
    (hp : ∀ p, fl.cpuprofile = some p → env.profileCreateOk = true) :
    (env.masterExists = true →
      ∃ pre mid post, (cindexMain fl env).1 =
        pre ++ Event.openIndex env.masterPath ::
          (mid ++ Event.statMaster env.masterPath :: post)) ∧
    (env.masterExists = false →
      (∃ pre, (cindexMain fl env).1 = pre ++ [Event.openIndex env.masterPath]) ∧
      (cindexMain fl env).2 = ExitKind.fatal ∧
      ∀ e ∈ (cindexMain fl env).1, touchesIndex e = false) := by
  have hro : (fl.reset && fl.args.isEmpty) = false := by simp [hr]
  constructor
  · intro hmx
    obtain ⟨tail, htail⟩ :=
      @buildPhase_stat_decomp fl env (builtinExcludePatterns ++ fl.exclude)
        env.recordedPaths
    cases hcp : fl.cpuprofile with
    | none =>
      refine ⟨[], resolveEvents env.absResolve env.recordedPaths, tail, ?_⟩
      simp [cindexMain, hl, hcp, afterProfile, indexOpen, hr, hro, ha, hmx, htail]
    | some p =>
      have hok := hp p hcp
      refine ⟨[Event.createProfile p, Event.startProfile],
        resolveEvents env.absResolve env.recordedPaths,
        tail ++ [Event.stopProfile], ?_⟩
      simp [cindexMain, hl, hcp, hok, afterProfile, indexOpen, hr, hro, ha, hmx, htail,
        if_neg buildPhase_ne_fatal, List.append_assoc]
  · intro hmx
    cases hcp : fl.cpuprofile with
    | none =>
      have h1 : cindexMain fl env =
          ([Event.openIndex env.masterPath], ExitKind.fatal) := by
        simp [cindexMain, hl, hcp, afterProfile, indexOpen, hr, hro, ha, hmx]
      refine ⟨⟨[], by rw [h1]; rfl⟩, by rw [h1], ?_⟩
      intro e he
      rw [h1] at he
      rcases List.mem_singleton.1 he with rfl
      rfl
    | some p =>
      have hok := hp p hcp
      have h1 : cindexMain fl env =
          ([Event.createProfile p, Event.startProfile,
            Event.openIndex env.masterPath], ExitKind.fatal) := by
        simp [cindexMain, hl, hcp, hok, afterProfile, indexOpen, hr, hro, ha, hmx]
      refine ⟨⟨[Event.createProfile p, Event.startProfile], by rw [h1]; rfl⟩,
        by rw [h1], ?_⟩
      intro e he
      rw [h1] at he
      rcases List.mem_cons.1 he with rfl | he
      · rfl
      rcases List.mem_cons.1 he with rfl | he
      · rfl
      rcases List.mem_singleton.1 he with rfl
      rfl

/-- C10 witness: the theorem applied to the concrete run `cindex` with no
arguments against a missing master: the run is exactly the fatal open. -/
theorem c10_witness :
    (cindexMain flagsNoArgs envNoMaster).2 = ExitKind.fatal := by
  exact ((c10_open_before_stat flagsNoArgs envNoMaster rfl rfl rfl
    (fun _ h => Option.noConfusion h)).2 rfl).2.1

end Cindex
